import Mathlib

/-!
Verification of the post-copy fixup script (`post_copy.py`) of the
kbase-jlab-overlay repository.

The script performs regex-based text rewrites on `pyproject.toml`
(`modify_pyproject`), a splice of a version-import block into
`__init__.py` (`modify_init`), and deletion of six fixed files
(`delete_files`).  Text is modelled as `List Char`; each `re.sub` call
is modelled by a leftmost-match scanner `subScan` driven by an explicit
matcher function that reproduces the concrete regular expression used
at that call site (all the regexes involved are literal strings plus
greedy character-class runs or a lazy run bounded by a lookahead, so
each one has a deterministic, executable matcher).
-/

/-- `litPre p s` is true iff the list `p` is a leading segment of `s`
(the role `str.startswith` / regex literal matching plays in the script). -/
def litPre : List Char → List Char → Bool
  | [], _ => true
  | _ :: _, [] => false
  | a :: as, b :: bs => a == b && litPre as bs

/-- Substring test, modelling Python's `pat in content`. -/
def containsSub (pat : List Char) : List Char → Bool
  | [] => pat.isEmpty
  | s@(_ :: r) => litPre pat s || containsSub pat r

/-- A matcher consumes a prefix of its argument:
`some (n, repl)` means the regex matches the first `n` characters and the
match is to be replaced by `repl`. -/
abbrev Matcher := List Char → Option (Nat × List Char)

/-- `noFire m a rest` says the matcher `m` matches at no position inside
the prefix `a` of `a ++ rest` (the scan passes `a` through verbatim). -/
def noFire (m : Matcher) : List Char → List Char → Bool
  | [], _ => true
  | c :: a, rest => (m (c :: (a ++ rest))).isNone && noFire m a rest

/-- `anyFire m s` says the matcher `m` matches at some position of `s`. -/
def anyFire (m : Matcher) : List Char → Bool
  | [] => false
  | s@(_ :: r) => (m s).isSome || anyFire m r

/-- Fuelled core of the substitution scanner (fuel makes the recursion
structural so that concrete instances evaluate by `decide`).  Every
matcher used below consumes at least one character on success, so the
`n - 1` accounting never truncates. -/
def subScanGo (m : Matcher) : Nat → List Char → List Char
  | _, [] => []
  | 0, c :: r => c :: r
  | f + 1, c :: r =>
    match m (c :: r) with
    | some (n, repl) => repl ++ subScanGo m f (List.drop (n - 1) r)
    | none => c :: subScanGo m f r

/-- `re.sub` / `str.replace` scanning semantics: repeatedly find the
leftmost match of `m`, emit its replacement, and resume immediately
after the matched segment. -/
def subScan (m : Matcher) (s : List Char) : List Char :=
  subScanGo m s.length s

/-- Literal-pattern matcher (for the `re.sub` calls whose pattern is a
fully escaped literal, and for `str.replace`). -/
def litM (pat repl : List Char) : Matcher := fun s =>
  if litPre pat s then some (pat.length, repl) else none

/-- First-occurrence splitter, modelling one step of
`content.split(sep, …)`: returns the text before the first occurrence
of `pat` and the text after it. -/
def splitFirst (pat : List Char) : List Char → Option (List Char × List Char)
  | [] => none
  | s@(c :: r) =>
    if litPre pat s then some ([], List.drop pat.length s)
    else match splitFirst pat r with
      | some (pre, post) => some (c :: pre, post)
      | none => none

/-- The double-quote character (written via its code point so that the
character does not have to appear inside quotes). -/
def quoteC : Char := Char.ofNat 34

/-- The apostrophe character. -/
def apos : Char := Char.ofNat 39

/-- Python `\s` on the ASCII range (space, tab, newline, carriage
return, vertical tab, form feed). -/
def isPySpace (c : Char) : Bool :=
  c == ' ' || c == '\t' || c == '\n' || c == '\r' ||
    c == Char.ofNat 11 || c == Char.ofNat 12

/-- Characters matched by the `[\d.]` class of the first rewrite. -/
def isVerChar (c : Char) : Bool := c.isDigit || c == '.'

/-- Literal part of the pattern `"hatch-nodejs-version>=[\d.]+"`. -/
def depPre : List Char := "\"hatch-nodejs-version>=".data

/-- Replacement `"hatch-vcs>=0.4.0"` of the first rewrite. -/
def vcsDep : List Char := "\"hatch-vcs>=0.4.0\"".data

/-- Matcher for a pattern of the shape `<literal><class>+"`: the
literal prefix, then a greedy nonempty run of the character class, then
a closing double quote.  When the quote is not in the class, the greedy
run with backtracking succeeds exactly when the maximal run is followed
by a quote, so this matcher is the exact semantics of the two regexes
of this shape in the script. -/
def runMatcher (lit : List Char) (cls : Char → Bool) (repl : List Char) :
    Matcher := fun s =>
  if litPre lit s then
    let t := s.drop lit.length
    let r := t.takeWhile cls
    if r.length == 0 then none
    else
      match t.drop r.length with
      | c :: _ =>
        if c == quoteC then some (lit.length + r.length + 1, repl)
        else none
      | [] => none
  else none

/-- Matcher for `"hatch-nodejs-version>=[\d.]+"`. -/
def depMatcher : Matcher := runMatcher depPre isVerChar vcsDep

/-- Pattern `\[tool\.hatch\.version\]\nsource = "nodejs"` (a literal). -/
def nodejsSrc : List Char := "[tool.hatch.version]\nsource = \"nodejs\"".data

/-- Its replacement (also the anchor of the local-scheme insertion). -/
def vcsSrc : List Char := "[tool.hatch.version]\nsource = \"vcs\"".data

/-- Guard substring `local_scheme` of the third rewrite. -/
def lsLit : List Char := "local_scheme".data

/-- Text appended after the anchor by the third rewrite
(`\n\n[tool.hatch.version.raw-options]\nlocal_scheme = "no-local-version"`). -/
def rawOpts : List Char :=
  "\n\n[tool.hatch.version.raw-options]\nlocal_scheme = \"no-local-version\"".data

/-- Guard substring `tool.hatch.build.hooks.version` of the hook rule. -/
def hookGuard : List Char := "tool.hatch.build.hooks.version".data

/-- Anchor `[tool.hatch.build.hooks.jupyter-builder]` of the hook rule. -/
def jbHeader : List Char := "[tool.hatch.build.hooks.jupyter-builder]".data

/-- The inserted version hook
`[tool.hatch.build.hooks.version]\npath = "<python_name>/_version.py"`. -/
def versionHook (name : List Char) : List Char :=
  "[tool.hatch.build.hooks.version]\npath = \"".data ++ name ++
    "/_version.py\"".data

/-- Two newline characters. -/
def nn : List Char := ['\n', '\n']

/-- Header `[tool.jupyter-releaser.options]`. -/
def optsHeader : List Char := "[tool.jupyter-releaser.options]".data

/-- Header `[tool.jupyter-releaser.hooks]`. -/
def hooksHeader : List Char := "[tool.jupyter-releaser.hooks]".data

/-- Matcher for `hdr.*?(?=\[|\Z)` with `re.DOTALL`: the literal header,
then a lazy run of arbitrary characters ending just before the next
open-bracket character, or at the end of the document.  The whole match
is deleted. -/
def sectionMatcher (hdr : List Char) : Matcher := fun s =>
  if litPre hdr s then
    some (hdr.length + ((s.drop hdr.length).takeWhile (· != '[')).length, [])
  else none

/-- Literal part of `requires-python = ">=3\.\d+"`. -/
def reqPre : List Char := "requires-python = \">=3.".data

/-- Replacement `requires-python = ">=3.10"`. -/
def req310 : List Char := "requires-python = \">=3.10\"".data

/-- Matcher for `requires-python = ">=3\.\d+"`: literal prefix, greedy
nonempty digit run, closing quote (the quote is not a digit, so only
the maximal run can succeed). -/
def reqMatcher : Matcher := runMatcher reqPre Char.isDigit req310

/-- Literal part of the classifier pattern
`\s*"Programming Language :: Python :: 3\.[89]",?\n`. -/
def classLit : List Char := "\"Programming Language :: Python :: 3.".data

/-- Matcher for the classifier-removal pattern: a greedy whitespace run
(the literal starts with a non-space character, so backtracking always
settles on the maximal run), the literal, `8` or `9`, a quote, an
optional comma, then a newline.  Replaced by a single newline. -/
def classifierMatcher : Matcher := fun s =>
  let w := s.takeWhile isPySpace
  let t := s.drop w.length
  if litPre classLit t then
    match t.drop classLit.length with
    | d :: u =>
      if d == '8' || d == '9' then
        match u with
        | q :: u2 =>
          if q == quoteC then
            match u2 with
            | c2 :: u3 =>
              if c2 == ',' then
                match u3 with
                | c3 :: _ =>
                  if c3 == '\n' then
                    some (w.length + classLit.length + 4, ['\n'])
                  else none
                | [] => none
              else if c2 == '\n' then
                some (w.length + classLit.length + 3, ['\n'])
              else none
            | [] => none
          else none
        | [] => none
      else none
    | [] => none
  else none

/-- Matcher for `\n{3,}`: a greedy run of at least three newlines,
replaced by exactly two. -/
def blankMatcher : Matcher := fun s =>
  let r := s.takeWhile (· == '\n')
  if 3 ≤ r.length then some (r.length, nn) else none

/-- Rewrite (a): `re.sub(r'"hatch-nodejs-version>=[\d.]+"', '"hatch-vcs>=0.4.0"', content)`. -/
def replaceNodejsDep (content : List Char) : List Char :=
  subScan depMatcher content

/-- Rewrite (b): `re.sub(r'\[tool\.hatch\.version\]\nsource = "nodejs"', …)`. -/
def replaceVersionSource (content : List Char) : List Char :=
  subScan (litM nodejsSrc vcsSrc) content

/-- Rewrite (c): `if "local_scheme" not in content: re.sub(r'(\[tool\.hatch\.version\]\nsource = "vcs")', r'\1\n\n[tool.hatch.version.raw-options]\nlocal_scheme = "no-local-version"', content)`. -/
def addLocalScheme (content : List Char) : List Char :=
  if containsSub lsLit content then content
  else subScan (litM vcsSrc (vcsSrc ++ rawOpts)) content

/-- Rewrite (d): `if "tool.hatch.build.hooks.version" not in content: content.replace("[tool.hatch.build.hooks.jupyter-builder]", f"{version_hook}\n\n[tool.hatch.build.hooks.jupyter-builder]")`. -/
def addVersionHook (name content : List Char) : List Char :=
  if containsSub hookGuard content then content
  else subScan (litM jbHeader (versionHook name ++ nn ++ jbHeader)) content

/-- Rewrite (e): the two `re.sub(r'\[tool\.jupyter-releaser\.…\].*?(?=\[|\Z)', '', content, flags=re.DOTALL)` calls. -/
def removeReleaserSections (content : List Char) : List Char :=
  subScan (sectionMatcher hooksHeader)
    (subScan (sectionMatcher optsHeader) content)

/-- Rewrite (f1): `re.sub(r'requires-python = ">=3\.\d+"', 'requires-python = ">=3.10"', content)`. -/
def bumpRequiresPython (content : List Char) : List Char :=
  subScan reqMatcher content

/-- Rewrite (f2): `re.sub(r'\s*"Programming Language :: Python :: 3\.[89]",?\n', '\n', content)`. -/
def removeOldClassifiers (content : List Char) : List Char :=
  subScan classifierMatcher content

/-- Rewrite (g): `re.sub(r'\n{3,}', '\n\n', content)`. -/
def collapseBlankLines (content : List Char) : List Char :=
  subScan blankMatcher content

/-- The full text-to-text function of `modify_pyproject` (the file read
and write are outside the model; the nine rewrites run in the order of
the source). -/
def modify_pyproject (name content : List Char) : List Char :=
  collapseBlankLines
    (removeOldClassifiers
      (bumpRequiresPython
        (removeReleaserSections
          (addVersionHook name
            (addLocalScheme
              (replaceVersionSource
                (replaceNodejsDep content)))))))

/-- Three double quotes, Python's `'"""'`. -/
def q3 : List Char := [quoteC, quoteC, quoteC]

/-- Marker substring `_version` of the entry-point transform. -/
def mvLit : List Char := "_version".data

/-- The version-import block of `modify_init`, with the module name
interpolated for the `'{}'` placeholder of `str.format`. -/
def versionBlock (name : List Char) : List Char :=
  "try:\n    from ._version import __version__\nexcept ImportError:\n    import warnings\n    warnings.warn(\"Importing ".data ++
    [apos] ++ name ++ [apos] ++
    " outside a proper installation.\")\n    __version__ = \"dev\"\n".data

/-- The text-to-text function of `modify_init`: no-op when the marker
substring `_version` is present; otherwise split on the first two
occurrences of `\"\"\"` (Python `content.split('\"\"\"', 2)`); with at
least two occurrences the version block goes after the second one, and
otherwise at the very top. -/
def modify_init_text (name content : List Char) : List Char :=
  if containsSub mvLit content then content
  else if containsSub q3 content then
    match splitFirst q3 content with
    | some (p0, r1) =>
      match splitFirst q3 r1 with
      | some (p1, p2) =>
        p0 ++ q3 ++ p1 ++ q3 ++ nn ++ versionBlock name ++ p2
      | none => versionBlock name ++ '\n' :: content
    | none => versionBlock name ++ '\n' :: content
  else versionBlock name ++ '\n' :: content

/-- File-level behaviour of `modify_init`: the state is the optional
content of `<name>/__init__.py` (`none` when the file does not exist);
the boolean records whether a write happened. -/
def modify_init_run (name : List Char) (st : Option (List Char)) :
    Option (List Char) × Bool :=
  match st with
  | none => (none, false)
  | some content =>
    if containsSub mvLit content then (some content, false)
    else (some (modify_init_text name content), true)

/-- The fixed deletion list of `delete_files`. -/
def files_to_delete : List String :=
  [".nvmrc", "setup.py", ".github/workflows/check-release.yml",
    ".github/workflows/prep-release.yml",
    ".github/workflows/publish-release.yml",
    ".github/workflows/enforce-label.yml"]

/-- A working tree, as the existence predicate on paths. -/
def FsTree : Type := String → Bool

/-- `Path.unlink()`: fails (returns `none`) when the file is absent. -/
def unlink (t : FsTree) (f : String) : Option FsTree :=
  if t f then some (fun g => if g = f then false else t g) else none

/-- One iteration of the deletion loop: `if path.exists(): path.unlink()`. -/
def deleteStep (t : FsTree) (f : String) : Option FsTree :=
  if t f then unlink t f else some t

/-- `delete_files`: fold the deletion step over the fixed list;
`none` would mean an uncaught filesystem error. -/
def delete_files (t : FsTree) : Option FsTree :=
  files_to_delete.foldlM deleteStep t

/-- `headNotNl y` holds when `y` is empty or does not start with a
newline (so a newline run ending at `y` is maximal). -/
def headNotNl : List Char → Bool
  | [] => true
  | c :: _ => c != '\n'

/-- `fixFire m s` says every match of `m` at every position of `s`
replaces the matched segment by itself (and consumes at least one
character); a scan over such a text is the identity.  This is the
fixed-point condition for the requires-python rule, whose pattern still
matches the already-rewritten `">=3.10"` declaration. -/
def fixFire (m : Matcher) : List Char → Bool
  | [] => true
  | s@(_ :: r) =>
    (match m s with
     | none => true
     | some (n, repl) => n != 0 && repl == s.take n) && fixFire m r

/-- Module name used in the concrete instances below. -/
def nmMyext : List Char := "myext".data

/-- Module name used in the entry-point instances below. -/
def nmPkg : List Char := "pkg".data

/-- A representative generated configuration document containing every
pattern the transform can match: the nodejs-version build dependency,
the nodejs version source, the jupyter-builder hook, both
jupyter-releaser sections, a `>=3.8` python floor and the 3.8/3.9
classifiers. -/
def tmplDoc : List Char :=
  ("[build-system]\nrequires = [\"hatchling>=1.5.0\", \"hatch-nodejs-version>=0.3.2\", \"jupyterlab>=4.0.0,<5\"]\n\n" ++
   "[project]\nname = \"myext\"\nrequires-python = \">=3.8\"\nclassifiers = [\n    \"Programming Language :: Python :: 3.8\",\n    \"Programming Language :: Python :: 3.9\",\n    \"Programming Language :: Python :: 3.10\",\n]\n\n" ++
   "[tool.hatch.version]\nsource = \"nodejs\"\n\n" ++
   "[tool.hatch.build.hooks.jupyter-builder]\nbuild-function = \"hatch_jupyter_builder.npm_builder\"\n\n" ++
   "[tool.jupyter-releaser.options]\nversion-cmd = \"python bump.py\"\n\n" ++
   "[tool.jupyter-releaser.hooks]\nbefore-build-npm = \"jlpm\"\n\n" ++
   "[tool.check]\nok = 1\n").data

/-- A document whose only `local_scheme` occurrence sits inside a
jupyter-releaser section: the first application deletes the guard
substring, the second application then inserts the raw-options block. -/
def cexIdem : List Char :=
  "[tool.jupyter-releaser.options]\nlocal_scheme\n[tool.hatch.version]\nsource = \"vcs\"\n".data

/-- Two overlapping nodejs-version declarations (the second shares its
opening quote with the closing quote of the first match). -/
def cexDep : List Char :=
  "\"hatch-nodejs-version>=123\"hatch-nodejs-version>=1.0\"".data

/-- An entry-point document that does not begin with a documentation
block but contains one further down. -/
def cexInit : List Char := "import os\n\"\"\"d\"\"\"\npass\n".data

/-- A configuration document containing neither `local_scheme` nor the
version-source anchor. -/
def cexTiny : List Char := "x".data

/-- Entry-point content already containing the `_version` marker. -/
def cexMarked : List Char := "from ._version import __version__\n".data

/-- Concrete flank texts used by the witness instances. -/
def wPreA : List Char := "x = 1\n\n".data

def wPreC3 : List Char := "a".data

def wPostC3 : List Char := "b\n\nc".data

def wDepPre : List Char := "requires = [\n  ".data

def wPostDep : List Char := ",\n]\n".data

def wPostA : List Char := "\nb = 2\n".data

def wVer : List Char := "12".data

def wVerDots : List Char := "0.3.2".data

def wInitPre : List Char := "import os\n".data

def wInitDoc : List Char := "Doc text.".data

def wInitRest : List Char := "\nimport sys\n".data

theorem litPre_append_self (p t : List Char) : litPre p (p ++ t) = true := by
  induction p with
  | nil => rfl
  | cons a as ih => simp [litPre, ih]

theorem litPre_eq_append {p s : List Char} (h : litPre p s = true) :
    ∃ t, s = p ++ t := by
  induction p generalizing s with
  | nil => exact ⟨s, rfl⟩
  | cons a as ih =>
    cases s with
    | nil => simp [litPre] at h
    | cons b bs =>
      simp only [litPre, Bool.and_eq_true, beq_iff_eq] at h
      obtain ⟨t, ht⟩ := ih h.2
      exact ⟨t, by simp [h.1, ht]⟩

theorem litPre_extend {p a : List Char} (b : List Char)
    (h : litPre p a = true) : litPre p (a ++ b) = true := by
  obtain ⟨t, ht⟩ := litPre_eq_append h
  subst ht
  rw [List.append_assoc]
  exact litPre_append_self p (t ++ b)

theorem subScanGo_nil (m : Matcher) (f : Nat) : subScanGo m f [] = [] := by
  cases f <;> rfl

theorem subScanGo_fuel (m : Matcher) :
    ∀ (f : Nat) (s : List Char), s.length ≤ f →
      subScanGo m f s = subScan m s := by
  intro f
  induction f using Nat.strong_induction_on with
  | _ f ih =>
    intro s hs
    cases s with
    | nil => rw [subScanGo_nil]; rfl
    | cons c r =>
      cases f with
      | zero => simp at hs
      | succ f =>
        have hr : r.length ≤ f := by simpa using hs
        show subScanGo m (f + 1) (c :: r) = subScanGo m (c :: r).length (c :: r)
        simp only [List.length_cons]
        cases hm : m (c :: r) with
        | none =>
          simp only [subScanGo, hm]
          rw [ih f (Nat.lt_succ_self f) r hr,
            ih r.length (Nat.lt_succ_of_le hr) r (Nat.le_refl _)]
        | some v =>
          obtain ⟨n, repl⟩ := v
          simp only [subScanGo, hm]
          have hd : (List.drop (n - 1) r).length ≤ r.length := by
            simp [Nat.sub_le]
          rw [ih f (Nat.lt_succ_self f) _ (Nat.le_trans hd hr),
            ih r.length (Nat.lt_succ_of_le hr) _ hd]

theorem subScan_empty (m : Matcher) : subScan m [] = [] := by
  show subScanGo m 0 [] = []
  exact subScanGo_nil m 0

theorem subScan_cons_none {m : Matcher} {c : Char} {r : List Char}
    (h : m (c :: r) = none) : subScan m (c :: r) = c :: subScan m r := by
  show subScanGo m (c :: r).length (c :: r) = _
  simp only [List.length_cons, subScanGo, h]
  rfl

theorem subScan_cons_fire {m : Matcher} {c : Char} {r : List Char}
    {n : Nat} {repl : List Char}
    (h : m (c :: r) = some (n, repl)) :
    subScan m (c :: r) = repl ++ subScan m (List.drop (n - 1) r) := by
  show subScanGo m (c :: r).length (c :: r) = _
  simp only [List.length_cons, subScanGo, h]
  rw [subScanGo_fuel m r.length _ (by simp [Nat.sub_le])]

theorem subScan_fire {m : Matcher} {s : List Char} {n : Nat}
    {repl : List Char} (h : m s = some (n, repl)) (hn : n ≠ 0)
    (hs : s ≠ []) :
    subScan m s = repl ++ subScan m (List.drop n s) := by
  cases s with
  | nil => exact absurd rfl hs
  | cons c r =>
    rw [subScan_cons_fire h]
    congr 1
    cases n with
    | zero => exact absurd rfl hn
    | succ k => simp

theorem subScan_passthrough {m : Matcher} :
    ∀ {a : List Char} (rest : List Char), noFire m a rest = true →
      subScan m (a ++ rest) = a ++ subScan m rest := by
  intro a
  induction a with
  | nil => intro rest _; rfl
  | cons c a ih =>
    intro rest h
    simp only [noFire, Bool.and_eq_true, Option.isNone_iff_eq_none] at h
    rw [List.cons_append, subScan_cons_none h.1, ih rest h.2, List.cons_append]

theorem subScan_id {m : Matcher} {a : List Char}
    (h : noFire m a [] = true) : subScan m a = a := by
  have := subScan_passthrough (m := m) (a := a) [] h
  simpa [subScan_empty] using this

theorem containsSub_of_litPre {p s : List Char} (h : litPre p s = true) :
    containsSub p s = true := by
  cases s with
  | nil =>
    cases p with
    | nil => rfl
    | cons a as => simp [litPre] at h
  | cons c r => simp [containsSub, h]

theorem containsSub_append_left {p a : List Char} (b : List Char)
    (h : containsSub p a = true) : containsSub p (a ++ b) = true := by
  induction a with
  | nil =>
    cases p with
    | nil => exact containsSub_of_litPre rfl
    | cons x xs => simp [containsSub, List.isEmpty] at h
  | cons c r ih =>
    simp only [containsSub, Bool.or_eq_true] at h
    rcases h with h | h
    · have h2 := litPre_extend b h
      rw [List.cons_append] at h2
      simp [containsSub, h2]
    · simpa [containsSub] using Or.inr (ih h)

theorem containsSub_append_right {p b : List Char} (a : List Char)
    (h : containsSub p b = true) : containsSub p (a ++ b) = true := by
  induction a with
  | nil => simpa using h
  | cons c r ih => simpa [containsSub] using Or.inr ih

theorem litM_fire (pat repl t : List Char) :
    litM pat repl (pat ++ t) = some (pat.length, repl) := by
  simp [litM, litPre_append_self]

theorem length_ne_zero_of_ne_nil {p : List Char} (h : p ≠ []) :
    p.length ≠ 0 := by
  cases p with
  | nil => exact absurd rfl h
  | cons c r => simp

theorem subScan_lit_single {pat repl : List Char} (pre post : List Char)
    (hp : pat ≠ [])
    (h1 : noFire (litM pat repl) pre (pat ++ post) = true)
    (h2 : noFire (litM pat repl) post [] = true) :
    subScan (litM pat repl) (pre ++ pat ++ post) = pre ++ repl ++ post := by
  rw [List.append_assoc, subScan_passthrough _ h1,
    subScan_fire (litM_fire pat repl post) (length_ne_zero_of_ne_nil hp)
      (by cases pat with | nil => exact absurd rfl hp | cons c r => simp),
    List.drop_left, subScan_id h2, List.append_assoc]

theorem subScan_lit_absent {pat repl c : List Char}
    (h : containsSub pat c = false) : subScan (litM pat repl) c = c := by
  induction c with
  | nil => exact subScan_empty _
  | cons x r ih =>
    simp only [containsSub, Bool.or_eq_false_iff] at h
    rw [subScan_cons_none (by simp [litM, h.1]), ih h.2]

theorem takeWhile_append_all {p : Char → Bool} {a : List Char}
    (b : List Char) (h : a.all p = true) :
    (a ++ b).takeWhile p = a ++ b.takeWhile p := by
  induction a with
  | nil => rfl
  | cons c r ih =>
    simp only [List.all_cons, Bool.and_eq_true] at h
    simp [List.takeWhile_cons, h.1, ih h.2]

theorem anyFire_of_noFire {m : Matcher} {a : List Char}
    (h : noFire m a [] = true) : anyFire m a = false := by
  induction a with
  | nil => rfl
  | cons c r ih =>
    simp only [noFire, List.append_nil, Bool.and_eq_true,
      Option.isNone_iff_eq_none] at h
    simp [anyFire, h.1, ih (by
      cases r with
      | nil => rfl
      | cons d t => simpa [noFire, List.append_nil] using h.2)]

theorem anyFire_append_false {m : Matcher} {a rest : List Char}
    (h1 : noFire m a rest = true) (h2 : anyFire m rest = false) :
    anyFire m (a ++ rest) = false := by
  induction a with
  | nil => simpa using h2
  | cons c r ih =>
    simp only [noFire, Bool.and_eq_true, Option.isNone_iff_eq_none] at h1
    simp [anyFire, h1.1, ih h1.2]

theorem noFire_of_all {m : Matcher} {p : Char → Bool}
    (hm : ∀ c s, p c = true → m (c :: s) = none) :
    ∀ {a : List Char} (rest : List Char), a.all p = true →
      noFire m a rest = true := by
  intro a
  induction a with
  | nil => intro rest _; rfl
  | cons c r ih =>
    intro rest h
    simp only [List.all_cons, Bool.and_eq_true] at h
    simp [noFire, hm c (r ++ rest) h.1, ih rest h.2]

theorem noFire_append {m : Matcher} {a b rest : List Char}
    (h1 : noFire m a (b ++ rest) = true) (h2 : noFire m b rest = true) :
    noFire m (a ++ b) rest = true := by
  induction a with
  | nil => simpa using h2
  | cons c r ih =>
    simp only [noFire, Bool.and_eq_true, Option.isNone_iff_eq_none] at h1
    simp only [List.cons_append, noFire, Bool.and_eq_true,
      Option.isNone_iff_eq_none]
    exact ⟨by simpa [List.append_assoc] using h1.1, ih h1.2⟩

theorem splitFirst_not_contains {pat c : List Char}
    (h : containsSub pat c = false) : splitFirst pat c = none := by
  induction c with
  | nil => rfl
  | cons x r ih =>
    simp only [containsSub, Bool.or_eq_false_iff] at h
    simp [splitFirst, h.1, ih h.2]

theorem litM_none_of_noFire_head {pat repl : List Char} {c : Char}
    {s : List Char} (h : (litM pat repl (c :: s)).isNone = true) :
    litPre pat (c :: s) = false := by
  by_cases hlp : litPre pat (c :: s) = true
  · simp [litM, hlp] at h
  · simpa using hlp

theorem splitFirst_append {pat : List Char} (a t : List Char)
    (hp : pat ≠ [])
    (ha : noFire (litM pat []) a (pat ++ t) = true) :
    splitFirst pat (a ++ (pat ++ t)) = some (a, t) := by
  induction a with
  | nil =>
    obtain ⟨c, rr, rfl⟩ : ∃ c rr, pat = c :: rr := by
      cases pat with
      | nil => exact absurd rfl hp
      | cons c rr => exact ⟨c, rr, rfl⟩
    have hlp : litPre (c :: rr) (c :: (rr ++ t)) = true := by
      rw [← List.cons_append]; exact litPre_append_self _ _
    rw [List.nil_append, List.cons_append]
    simp only [splitFirst]
    rw [if_pos hlp]
    rw [show List.drop (c :: rr).length (c :: (rr ++ t)) = t from by
      rw [← List.cons_append, List.drop_left]]
  | cons c r ih =>
    simp only [noFire, Bool.and_eq_true] at ha
    have hnp := litM_none_of_noFire_head ha.1
    rw [List.cons_append]
    simp only [splitFirst, hnp, ih ha.2]
    simp

theorem runMatcher_fire (lit : List Char) (cls : Char → Bool)
    (repl v post : List Char) (hv : v ≠ []) (hvc : v.all cls = true)
    (hq : cls quoteC = false) :
    runMatcher lit cls repl (lit ++ (v ++ quoteC :: post)) =
      some (lit.length + v.length + 1, repl) := by
  have ht : (lit ++ (v ++ quoteC :: post)).drop lit.length =
      v ++ quoteC :: post := by
    rw [List.drop_left]
  have hr : (v ++ quoteC :: post).takeWhile cls = v := by
    rw [takeWhile_append_all _ hvc, List.takeWhile_cons, hq]
    simp
  have hl : (v.length == 0) = false := by
    simpa using length_ne_zero_of_ne_nil hv
  simp only [runMatcher]
  rw [if_pos (litPre_append_self lit (v ++ quoteC :: post))]
  simp only [ht, hr, hl, List.drop_left]
  simp

theorem subScan_run_single (lit : List Char) (cls : Char → Bool)
    (repl pre v post : List Char)
    (hl : lit ≠ []) (hv : v ≠ []) (hvc : v.all cls = true)
    (hq : cls quoteC = false)
    (h1 : noFire (runMatcher lit cls repl) pre
      (lit ++ (v ++ quoteC :: post)) = true)
    (h2 : noFire (runMatcher lit cls repl) post [] = true) :
    subScan (runMatcher lit cls repl)
        (pre ++ (lit ++ (v ++ quoteC :: post))) =
      pre ++ (repl ++ post) := by
  rw [subScan_passthrough _ h1]
  have hfire := runMatcher_fire lit cls repl v post hv hvc hq
  have hne : lit ++ (v ++ quoteC :: post) ≠ [] := by
    cases lit with | nil => exact absurd rfl hl | cons c r => simp
  rw [subScan_fire hfire
    (by have := length_ne_zero_of_ne_nil hl; omega) hne]
  have hdrop : List.drop (lit.length + v.length + 1)
      (lit ++ (v ++ quoteC :: post)) = post := by
    rw [show lit ++ (v ++ quoteC :: post) =
        (lit ++ (v ++ [quoteC])) ++ post from by simp [List.append_assoc]]
    rw [List.drop_left' (by simp [Nat.add_assoc])]
  rw [hdrop, subScan_id h2]

theorem blankMatcher_none_head {c : Char} (s : List Char)
    (hc : (c != '\n') = true) : blankMatcher (c :: s) = none := by
  have h : (c == '\n') = false := by simpa using hc
  simp [blankMatcher, List.takeWhile_cons, h]

theorem all_replicate_nl (k : Nat) :
    (List.replicate k '\n').all (· == '\n') = true := by
  induction k with
  | zero => rfl
  | succ n ih => simp [List.replicate_succ, ih]

theorem takeWhile_nl_run (k : Nat) (y : List Char)
    (hy : headNotNl y = true) :
    (List.replicate k '\n' ++ y).takeWhile (· == '\n') =
      List.replicate k '\n' := by
  rw [takeWhile_append_all y (all_replicate_nl k)]
  cases y with
  | nil => simp
  | cons c r =>
    have h : (c == '\n') = false := by simpa [headNotNl] using hy
    simp [List.takeWhile_cons, h]

theorem blankMatcher_run {k : Nat} {y : List Char}
    (hy : headNotNl y = true) :
    blankMatcher (List.replicate k '\n' ++ y) =
      if 3 ≤ k then some (k, nn) else none := by
  simp only [blankMatcher, takeWhile_nl_run k y hy, List.length_replicate]

theorem deleteStep_some (t : FsTree) (f : String) :
    deleteStep t f = some (fun g => if g = f then false else t g) := by
  by_cases h : t f = true
  · simp [deleteStep, unlink, h]
  · have hf : t f = false := by simpa using h
    simp only [deleteStep, hf, Bool.false_eq_true, if_false]
    congr 1
    funext g
    by_cases hg : g = f
    · subst hg; simp [hf]
    · simp [hg]

theorem delete_files_general (L : List String) :
    ∀ t : FsTree, L.foldlM deleteStep t =
      some (fun g => t g && !(L.contains g)) := by
  induction L with
  | nil =>
    intro t
    show some t = _
    congr 1
    funext g
    simp
  | cons f L ih =>
    intro t
    rw [List.foldlM_cons, deleteStep_some]
    show L.foldlM deleteStep (fun g => if g = f then false else t g) = _
    rw [ih]
    congr 1
    funext g
    by_cases hg : g = f
    · subst hg; simp
    · simp [List.contains_cons, hg, Ne.symm hg]

set_option maxRecDepth 300000 in
theorem subScan_of_anyFire_false {m : Matcher} {a : List Char}
    (h : anyFire m a = false) : subScan m a = a := by
  induction a with
  | nil => exact subScan_empty m
  | cons c r ih =>
    simp only [anyFire, Bool.or_eq_false_iff] at h
    obtain ⟨h1, h2⟩ := h
    have hm : m (c :: r) = none := by
      cases hmm : m (c :: r) with
      | none => rfl
      | some v => rw [hmm] at h1; simp at h1
    rw [subScan_cons_none hm, ih h2]

theorem subScan_section_absent {hdr c : List Char}
    (h : containsSub hdr c = false) :
    subScan (sectionMatcher hdr) c = c := by
  induction c with
  | nil => exact subScan_empty _
  | cons x r ih =>
    simp only [containsSub, Bool.or_eq_false_iff] at h
    rw [subScan_cons_none (by simp [sectionMatcher, h.1]), ih h.2]

theorem fixFire_tail {m : Matcher} {x : Char} {r : List Char}
    (h : fixFire m (x :: r) = true) : fixFire m r = true := by
  simp only [fixFire, Bool.and_eq_true] at h
  exact h.2

theorem fixFire_drop {m : Matcher} (k : Nat) :
    ∀ {s : List Char}, fixFire m s = true →
      fixFire m (List.drop k s) = true := by
  induction k with
  | zero => intro s h; simpa using h
  | succ n ih =>
    intro s h
    cases s with
    | nil => exact h
    | cons c r =>
      rw [List.drop_succ_cons]
      exact ih (fixFire_tail h)

theorem subScan_fixN {m : Matcher} :
    ∀ (N : Nat) (s : List Char), s.length ≤ N → fixFire m s = true →
      subScan m s = s := by
  intro N
  induction N with
  | zero =>
    intro s hs _
    cases s with
    | nil => exact subScan_empty m
    | cons c r => simp at hs
  | succ N ih =>
    intro s hs hf
    cases s with
    | nil => exact subScan_empty m
    | cons c r =>
      cases hm : m (c :: r) with
      | none =>
        rw [subScan_cons_none hm, ih r (by simpa using hs) (fixFire_tail hf)]
      | some v =>
        obtain ⟨n, repl⟩ := v
        have hparts : n ≠ 0 ∧ repl = (c :: r).take n := by
          simp only [fixFire, hm, Bool.and_eq_true, bne_iff_ne, ne_eq,
            beq_iff_eq] at hf
          exact ⟨hf.1.1, hf.1.2⟩
        have hdrop : List.drop (n - 1) r = List.drop n (c :: r) := by
          cases n with
          | zero => exact absurd rfl hparts.1
          | succ k => simp
        rw [subScan_cons_fire hm, hdrop,
          ih (List.drop n (c :: r))
            (by
              have hn1 : 1 ≤ n := Nat.one_le_iff_ne_zero.mpr hparts.1
              simp only [List.length_cons] at hs
              simp only [List.length_drop, List.length_cons]
              omega)
            (fixFire_drop n hf),
          hparts.2, List.take_append_drop]

theorem subScan_fix {m : Matcher} {s : List Char}
    (h : fixFire m s = true) : subScan m s = s :=
  subScan_fixN s.length s (Nat.le_refl _) h

theorem modify_pyproject_fixed (name y : List Char)
    (h1 : anyFire depMatcher y = false)
    (h2 : containsSub nodejsSrc y = false)
    (h3 : containsSub lsLit y = true ∨ containsSub vcsSrc y = false)
    (h4 : containsSub hookGuard y = true ∨ containsSub jbHeader y = false)
    (h5 : containsSub optsHeader y = false)
    (h6 : containsSub hooksHeader y = false)
    (h7 : fixFire reqMatcher y = true)
    (h8 : anyFire classifierMatcher y = false)
    (h9 : anyFire blankMatcher y = false) :
    modify_pyproject name y = y := by
  have e1 : replaceNodejsDep y = y := subScan_of_anyFire_false h1
  have e2 : replaceVersionSource y = y := subScan_lit_absent h2
  have e3 : addLocalScheme y = y := by
    rcases h3 with h | h
    · simp [addLocalScheme, h]
    · by_cases hg : containsSub lsLit y = true
      · simp [addLocalScheme, hg]
      · have hgf : containsSub lsLit y = false := by simpa using hg
        simp only [addLocalScheme, hgf, Bool.false_eq_true, if_false]
        exact subScan_lit_absent h
  have e4 : addVersionHook name y = y := by
    rcases h4 with h | h
    · simp [addVersionHook, h]
    · by_cases hg : containsSub hookGuard y = true
      · simp [addVersionHook, hg]
      · have hgf : containsSub hookGuard y = false := by simpa using hg
        simp only [addVersionHook, hgf, Bool.false_eq_true, if_false]
        exact subScan_lit_absent h
  have e56 : removeReleaserSections y = y := by
    unfold removeReleaserSections
    rw [subScan_section_absent h5, subScan_section_absent h6]
  have e7 : bumpRequiresPython y = y := subScan_fix h7
  have e8 : removeOldClassifiers y = y := subScan_of_anyFire_false h8
  have e9 : collapseBlankLines y = y := subScan_of_anyFire_false h9
  unfold modify_pyproject
  rw [e1, e2, e3, e4, e56, e7, e8, e9]

/-- Claim C1 (counterexample): the configuration transform is not
idempotent for every input: on `cexIdem` the only `local_scheme`
occurrence sits inside the removed jupyter-releaser section, so the
first run deletes the guard substring and the second run inserts the
raw-options block, changing the text again. -/
theorem claim_c1_counterexample :
    modify_pyproject nmMyext (modify_pyproject nmMyext cexIdem) ≠
      modify_pyproject nmMyext cexIdem := by decide

/-- Claim C1 (amended): applying the transform twice equals applying it
once for every input whose first application's output is a fixed point
of each rewrite rule: no nodejs-version dependency match remains (this
fails for the overlap counterexample of C5), no nodejs version-source
literal remains, the `local_scheme` guard survives (or no version-source
anchor exists — the guard-deletion counterexample `cexIdem` fails
here), the hook guard survives (or no jupyter-builder header exists),
no jupyter-releaser header remains, every requires-python match is
already at the fixed floor, and no removable classifier or collapsible
newline run remains.  All conditions are decidable on the output of the
first run. -/
theorem claim_c1_amended (name x : List Char)
    (h1 : anyFire depMatcher (modify_pyproject name x) = false)
    (h2 : containsSub nodejsSrc (modify_pyproject name x) = false)
    (h3 : containsSub lsLit (modify_pyproject name x) = true ∨
      containsSub vcsSrc (modify_pyproject name x) = false)
    (h4 : containsSub hookGuard (modify_pyproject name x) = true ∨
      containsSub jbHeader (modify_pyproject name x) = false)
    (h5 : containsSub optsHeader (modify_pyproject name x) = false)
    (h6 : containsSub hooksHeader (modify_pyproject name x) = false)
    (h7 : fixFire reqMatcher (modify_pyproject name x) = true)
    (h8 : anyFire classifierMatcher (modify_pyproject name x) = false)
    (h9 : anyFire blankMatcher (modify_pyproject name x) = false) :
    modify_pyproject name (modify_pyproject name x) =
      modify_pyproject name x :=
  modify_pyproject_fixed name (modify_pyproject name x)
    h1 h2 h3 h4 h5 h6 h7 h8 h9

set_option maxRecDepth 300000 in
/-- Claim C1 (witness): the representative template document, which
contains every matchable pattern, satisfies all nine fixed-point
conditions after one application, so a second application leaves its
transform unchanged. -/
theorem claim_c1_witness :
    modify_pyproject nmMyext (modify_pyproject nmMyext tmplDoc) =
      modify_pyproject nmMyext tmplDoc :=
  claim_c1_amended nmMyext tmplDoc (by decide) (by decide)
    (by decide) (by decide) (by decide) (by decide) (by decide)
    (by decide) (by decide)

/-- Claim C3: in the whitespace normalization, every run of `k ≥ 3`
consecutive newline characters becomes exactly two newlines (one blank
line), and runs of one or two newline characters are untouched; the
equation is compositional, so it applies to every run of the input. -/
theorem claim_c3_blank_collapse (x y : List Char) (k : Nat)
    (hx : x.all (· != '\n') = true) (hk : 1 ≤ k)
    (hy : headNotNl y = true) :
    collapseBlankLines (x ++ (List.replicate k '\n' ++ y)) =
      x ++ (List.replicate (min k 2) '\n' ++ collapseBlankLines y) := by
  unfold collapseBlankLines
  have hxpass : noFire blankMatcher x (List.replicate k '\n' ++ y) = true :=
    noFire_of_all (fun c s hc => blankMatcher_none_head s hc) _ hx
  rw [subScan_passthrough _ hxpass]
  by_cases h3 : 3 ≤ k
  · have hfire : blankMatcher (List.replicate k '\n' ++ y) =
        some (k, nn) := by
      rw [blankMatcher_run hy, if_pos h3]
    have hne : List.replicate k '\n' ++ y ≠ [] := by
      cases k with
      | zero => omega
      | succ n => simp [List.replicate_succ]
    rw [subScan_fire hfire (by omega) hne,
      List.drop_left' (by simp), (by omega : min k 2 = 2)]
    rfl
  · have hk2 : k = 1 ∨ k = 2 := by omega
    have hrun : noFire blankMatcher (List.replicate k '\n') y = true := by
      have e1 : blankMatcher ('\n' :: y) = none := by
        rw [show ('\n' :: y) = List.replicate 1 '\n' ++ y from by
          simp [List.replicate]]
        rw [blankMatcher_run hy]
        simp
      rcases hk2 with rfl | rfl
      · show noFire blankMatcher ['\n'] y = true
        simp [noFire, e1]
      · have e2 : blankMatcher ('\n' :: ('\n' :: y)) = none := by
          rw [show ('\n' :: ('\n' :: y)) =
              List.replicate 2 '\n' ++ y from by simp [List.replicate]]
          rw [blankMatcher_run hy]
          simp
        show noFire blankMatcher ['\n', '\n'] y = true
        simp [noFire, e1, e2]
    rw [subScan_passthrough _ hrun, (by omega : min k 2 = k)]

/-- Claim C3 (witness): a run of five newlines collapses to two, around
untouched text whose own short runs stay as they are. -/
theorem claim_c3_witness :
    collapseBlankLines (wPreC3 ++ (List.replicate 5 '\n' ++ wPostC3)) =
      wPreC3 ++ (List.replicate (min 5 2) '\n' ++
        collapseBlankLines wPostC3) :=
  claim_c3_blank_collapse wPreC3 wPostC3 5 (by decide) (by decide)
    (by decide)

set_option maxRecDepth 300000 in
/-- Claim C4 (counterexample): a document that does not begin with a
documentation block but contains two triple-delimiters elsewhere does
not get the version block at the very top — it is spliced after the
second delimiter instead. -/
theorem claim_c4_counterexample :
    litPre q3 cexInit = false ∧ containsSub mvLit cexInit = false ∧
    modify_init_text nmPkg cexInit ≠
      versionBlock nmPkg ++ '\n' :: cexInit := by
  exact ⟨by decide, by decide, by decide⟩

/-- Claim C4 (amended): when the document contains at least two
triple-delimiter occurrences, the version block (preceded by one blank
line) is spliced immediately after the second occurrence — in
particular immediately after the closing delimiter of a leading
documentation block, preserving it verbatim and keeping the following
code byte-identical; when the document contains fewer than two
occurrences — none at all, or exactly one — the block is inserted at
the very top. -/
theorem claim_c4_amended (name a b rest : List Char)
    (hm : containsSub mvLit (a ++ (q3 ++ (b ++ (q3 ++ rest)))) = false)
    (ha : noFire (litM q3 []) a (q3 ++ (b ++ (q3 ++ rest))) = true)
    (hb : noFire (litM q3 []) b (q3 ++ rest) = true) :
    modify_init_text name (a ++ (q3 ++ (b ++ (q3 ++ rest)))) =
      a ++ (q3 ++ (b ++ (q3 ++ (nn ++ (versionBlock name ++ rest))))) ∧
    (∀ c, containsSub mvLit c = false → containsSub q3 c = false →
      modify_init_text name c = versionBlock name ++ '\n' :: c) ∧
    (∀ a2 b2, containsSub mvLit (a2 ++ (q3 ++ b2)) = false →
      noFire (litM q3 []) a2 (q3 ++ b2) = true →
      containsSub q3 b2 = false →
      modify_init_text name (a2 ++ (q3 ++ b2)) =
        versionBlock name ++ '\n' :: (a2 ++ (q3 ++ b2))) := by
  refine ⟨?_, ?_, ?_⟩
  · have hq3 : containsSub q3 (a ++ (q3 ++ (b ++ (q3 ++ rest)))) = true :=
      containsSub_append_right a
        (containsSub_of_litPre (litPre_append_self q3 _))
    have hs1 : splitFirst q3 (a ++ (q3 ++ (b ++ (q3 ++ rest)))) =
        some (a, b ++ (q3 ++ rest)) :=
      splitFirst_append a (b ++ (q3 ++ rest)) (by decide) ha
    have hs2 : splitFirst q3 (b ++ (q3 ++ rest)) = some (b, rest) :=
      splitFirst_append b rest (by decide) hb
    simp only [modify_init_text, hm, hq3, hs1, hs2, Bool.false_eq_true,
      if_false, if_true]
    simp [List.append_assoc]
  · intro c h1 h2
    simp only [modify_init_text, h1, h2, Bool.false_eq_true, if_false]
  · intro a2 b2 hm2 ha2 hb2
    have hq3c : containsSub q3 (a2 ++ (q3 ++ b2)) = true :=
      containsSub_append_right a2
        (containsSub_of_litPre (litPre_append_self q3 b2))
    have hs1 : splitFirst q3 (a2 ++ (q3 ++ b2)) = some (a2, b2) :=
      splitFirst_append a2 b2 (by decide) ha2
    have hs2 : splitFirst q3 b2 = none := splitFirst_not_contains hb2
    simp only [modify_init_text, hm2, hq3c, hs1, hs2, Bool.false_eq_true,
      if_false, if_true]

set_option maxRecDepth 300000 in
/-- Claim C4 (witness): concrete instance of the amended claim, with
code before the documentation block. -/
theorem claim_c4_witness :
    modify_init_text nmPkg
        (wInitPre ++ (q3 ++ (wInitDoc ++ (q3 ++ wInitRest)))) =
      wInitPre ++ (q3 ++ (wInitDoc ++ (q3 ++ (nn ++
        (versionBlock nmPkg ++ wInitRest))))) :=
  (claim_c4_amended nmPkg wInitPre wInitDoc wInitRest (by decide)
    (by decide) (by decide)).1

set_option maxRecDepth 300000 in
/-- Claim C5 (counterexample): when two declarations overlap (the
second shares its opening quote with the closing quote of the first
match), the output still contains an occurrence of the nodejs-version
pattern. -/
theorem claim_c5_counterexample :
    anyFire depMatcher cexDep = true ∧
    anyFire depMatcher (replaceNodejsDep cexDep) = true := by
  exact ⟨by decide, by decide⟩

/-- Claim C5 (amended): for an input containing an isolated occurrence
of the nodejs-version declaration at any dotted numeric version (no
other match of the pattern starts anywhere else, before or after the
substitution), the output replaces it by the fixed `hatch-vcs>=0.4.0`
declaration, contains that declaration, and contains no occurrence of
the nodejs-version pattern; the version run `v` is matched but
discarded. -/
theorem claim_c5_amended (pre v post : List Char)
    (hv : v ≠ []) (hvc : v.all isVerChar = true)
    (h1 : noFire depMatcher pre (depPre ++ (v ++ quoteC :: post)) = true)
    (h2 : noFire depMatcher post [] = true)
    (h3 : noFire depMatcher pre (vcsDep ++ post) = true)
    (h4 : noFire depMatcher vcsDep post = true) :
    replaceNodejsDep (pre ++ (depPre ++ (v ++ quoteC :: post))) =
      pre ++ (vcsDep ++ post) ∧
    anyFire depMatcher (pre ++ (vcsDep ++ post)) = false ∧
    containsSub vcsDep (pre ++ (vcsDep ++ post)) = true := by
  refine ⟨?_, ?_, ?_⟩
  · unfold replaceNodejsDep
    show subScan (runMatcher depPre isVerChar vcsDep) _ = _
    exact subScan_run_single depPre isVerChar vcsDep pre v post
      (by decide) hv hvc (by decide) h1 h2
  · exact anyFire_append_false h3
      (anyFire_append_false h4 (anyFire_of_noFire h2))
  · exact containsSub_append_right pre
      (containsSub_of_litPre (litPre_append_self vcsDep post))

set_option maxRecDepth 300000 in
/-- Claim C5 (witness): a build-requires entry pinned at `0.3.2` is
replaced by the fixed vcs declaration and no trace of the pattern
remains. -/
theorem claim_c5_witness :
    replaceNodejsDep (wDepPre ++ (depPre ++ (wVerDots ++ quoteC :: wPostDep))) =
      wDepPre ++ (vcsDep ++ wPostDep) :=
  (claim_c5_amended wDepPre wVerDots wPostDep (by decide) (by decide)
    (by decide) (by decide) (by decide) (by decide)).1

/-- Claim C6: the version-build-hook insertion fires only when the
guard substring is absent and the jupyter-builder header is present
verbatim, in which case exactly one hook section (followed by one
blank line) is inserted immediately before that header; a document
without the header, or one already containing the guard substring, is
left unchanged by the rule. -/
theorem claim_c6_hook_insertion (name pre post : List Char)
    (hg : containsSub hookGuard (pre ++ jbHeader ++ post) = false)
    (h1 : noFire (litM jbHeader (versionHook name ++ nn ++ jbHeader)) pre
      (jbHeader ++ post) = true)
    (h2 : noFire (litM jbHeader (versionHook name ++ nn ++ jbHeader))
      post [] = true) :
    addVersionHook name (pre ++ jbHeader ++ post) =
      pre ++ versionHook name ++ nn ++ jbHeader ++ post ∧
    (∀ c, containsSub jbHeader c = false → addVersionHook name c = c) ∧
    (∀ c, containsSub hookGuard c = true → addVersionHook name c = c) := by
  refine ⟨?_, fun c hc => ?_, fun c hc => ?_⟩
  · simp only [addVersionHook, hg, Bool.false_eq_true, if_false]
    rw [subScan_lit_single pre post (by decide) h1 h2]
    simp [List.append_assoc]
  · by_cases hguard : containsSub hookGuard c = true
    · simp [addVersionHook, hguard]
    · have hgf : containsSub hookGuard c = false := by simpa using hguard
      simp only [addVersionHook, hgf, Bool.false_eq_true, if_false]
      exact subScan_lit_absent hc
  · simp [addVersionHook, hc]

set_option maxRecDepth 300000 in
/-- Claim C6 (witness): concrete insertion of the version hook before
the jupyter-builder header. -/
theorem claim_c6_witness :
    addVersionHook nmMyext (wPreA ++ jbHeader ++ wPostA) =
      wPreA ++ versionHook nmMyext ++ nn ++ jbHeader ++ wPostA :=
  (claim_c6_hook_insertion nmMyext wPreA wPostA (by decide) (by decide)
    (by decide)).1

set_option maxRecDepth 300000 in
/-- Claim C7 (counterexample): absence of `local_scheme` alone does not
imply the subsection is inserted — the insertion also needs the
version-source anchor; on `cexTiny` nothing is inserted although the
substring is absent. -/
theorem claim_c7_counterexample :
    containsSub lsLit cexTiny = false ∧
    modify_pyproject nmMyext cexTiny = cexTiny ∧
    containsSub lsLit (modify_pyproject nmMyext cexTiny) = false := by
  exact ⟨by decide, by decide, by decide⟩

/-- Claim C7 (amended): the local-scheme subsection is inserted exactly
when `local_scheme` is initially absent and the version-source anchor
is present: the structured conjunct inserts it in that case; when the
substring is present the rule never rewrites (third conjunct, all
inputs); when the anchor pattern is absent the rule never rewrites
either, so nothing is inserted there (fourth conjunct, all inputs);
and re-running the rule on its own output (which contains
`local_scheme` inside the inserted raw-options block) never duplicates
the subsection. -/
theorem claim_c7_local_scheme (pre post : List Char)
    (hls : containsSub lsLit (pre ++ vcsSrc ++ post) = false)
    (h1 : noFire (litM vcsSrc (vcsSrc ++ rawOpts)) pre
      (vcsSrc ++ post) = true)
    (h2 : noFire (litM vcsSrc (vcsSrc ++ rawOpts)) post [] = true) :
    addLocalScheme (pre ++ vcsSrc ++ post) =
      pre ++ vcsSrc ++ rawOpts ++ post ∧
    addLocalScheme (pre ++ vcsSrc ++ rawOpts ++ post) =
      pre ++ vcsSrc ++ rawOpts ++ post ∧
    (∀ c, containsSub lsLit c = true → addLocalScheme c = c) ∧
    (∀ c, containsSub vcsSrc c = false → addLocalScheme c = c) := by
  have hinv : ∀ c, containsSub lsLit c = true → addLocalScheme c = c := by
    intro c hc
    simp [addLocalScheme, hc]
  have hnoanchor : ∀ c, containsSub vcsSrc c = false →
      addLocalScheme c = c := by
    intro c hc
    by_cases hg : containsSub lsLit c = true
    · simp [addLocalScheme, hg]
    · have hgf : containsSub lsLit c = false := by simpa using hg
      simp only [addLocalScheme, hgf, Bool.false_eq_true, if_false]
      exact subScan_lit_absent hc
  refine ⟨?_, ?_, hinv, hnoanchor⟩
  · simp only [addLocalScheme, hls, Bool.false_eq_true, if_false]
    rw [subScan_lit_single pre post (by decide) h1 h2]
    simp [List.append_assoc]
  · apply hinv
    exact containsSub_append_left post
      (containsSub_append_right (pre ++ vcsSrc) (by decide))

set_option maxRecDepth 300000 in
/-- Claim C7 (witness): concrete insertion of the raw-options
subsection directly after the version-source anchor, and stability of
the result under a second application of the rule. -/
theorem claim_c7_witness :
    addLocalScheme (wPreA ++ vcsSrc ++ wPostA) =
      wPreA ++ vcsSrc ++ rawOpts ++ wPostA ∧
    addLocalScheme (wPreA ++ vcsSrc ++ rawOpts ++ wPostA) =
      wPreA ++ vcsSrc ++ rawOpts ++ wPostA :=
  ⟨(claim_c7_local_scheme wPreA wPostA (by decide) (by decide)
      (by decide)).1,
   (claim_c7_local_scheme wPreA wPostA (by decide) (by decide)
      (by decide)).2.1⟩

/-- Claim C8: the entry-point transform writes nothing and leaves the
state unchanged when the file does not exist or when its content
already contains the `_version` marker substring. -/
theorem claim_c8_init_noop (name : List Char) :
    modify_init_run name none = (none, false) ∧
    (∀ c, containsSub mvLit c = true →
      modify_init_run name (some c) = (some c, false)) := by
  refine ⟨rfl, fun c hc => ?_⟩
  simp [modify_init_run, hc]

/-- Claim C8 (witness): concrete no-op on a missing file and on content
containing the marker. -/
theorem claim_c8_witness :
    modify_init_run nmPkg none = (none, false) ∧
    modify_init_run nmPkg (some cexMarked) = (some cexMarked, false) :=
  ⟨(claim_c8_init_noop nmPkg).1,
   (claim_c8_init_noop nmPkg).2 cexMarked (by decide)⟩

/-- Claim C9: the deletion step succeeds on every working tree and its
result keeps exactly the paths that existed before and are not among
the six fixed paths — in particular every other path is untouched and
no failure occurs when none of the six exist. -/
theorem claim_c9_delete_files (t : FsTree) :
    delete_files t = some (fun g => t g && !(files_to_delete.contains g)) :=
  delete_files_general files_to_delete t

/-- Claim C10: a `requires-python = ">=3.N"` declaration is rewritten
to the fixed `">=3.10"` for every digit run `N` — an unconditional
rewrite, not a maximum with the existing value. -/
theorem claim_c10_requires_python (pre v post : List Char)
    (hv : v ≠ []) (hvc : v.all Char.isDigit = true)
    (h1 : noFire reqMatcher pre (reqPre ++ (v ++ quoteC :: post)) = true)
    (h2 : noFire reqMatcher post [] = true) :
    bumpRequiresPython (pre ++ (reqPre ++ (v ++ quoteC :: post))) =
      pre ++ (req310 ++ post) := by
  unfold bumpRequiresPython
  show subScan (runMatcher reqPre Char.isDigit req310) _ = _
  exact subScan_run_single reqPre Char.isDigit req310 pre v post
    (by decide) hv hvc (by decide) h1 h2

set_option maxRecDepth 300000 in
/-- Claim C10 (witness): the declaration `">=3.12"` — a version above
the floor — is lowered to the fixed `">=3.10"`. -/
theorem claim_c10_witness :
    bumpRequiresPython (wPreA ++ (reqPre ++ (wVer ++ quoteC :: wPostA))) =
      wPreA ++ (req310 ++ wPostA) :=
  claim_c10_requires_python wPreA wVer wPostA (by decide) (by decide)
    (by decide) (by decide)
